import Mathlib

/-!
Verification of the task ordering and optimistic move engine of a
Kanban-style project tracker.

The server side is the Express route
`PATCH /api/projects/:id/tasks/reorder` together with the task creation
route `POST /api/projects/:id/tasks` (file `backend/routes/projects.js`);
the client side is the `handleDragEnd` handler of `ProjectBoard.jsx`.
Tasks live in a MongoDB collection; we model the task set of one project
as a `List Task` and every Mongo query or update used by the routes as an
explicit list operation:

* `Task.find({projectId, status}).sort({order: 1})` becomes
  `sortByOrder (db.filter (fun t => t.status == c))` (insertion sort is
  stable; the route only sorts dense columns, where `order` values are
  distinct, so tie behaviour is irrelevant);
* `Task.bulkWrite` of `updateOne` operations that `$set` `order` and
  `updatedAt` becomes `applyBulk`;
* `Task.findByIdAndUpdate` and the two `Task.updateMany` calls of the
  cross-column branch become the pointwise maps `setMovedTask`,
  `closeSourceGap` and `openDestGap`;
* `Task.findOne({projectId, status}).sort({order: -1})` (task creation)
  becomes the head of `sortByOrderDesc`.

Mongoose ObjectId values are modelled as `Nat`, `Date` values as `Nat`,
and `order` as `Int` (the `$inc` updates are ordinary integer
arithmetic).  The project existence check of the routes is outside the
model: we verify the behaviour on the task records of one existing
project.
-/

namespace Wellfound

/-- A task record, after the mongoose `Task` schema: identifier, title,
description, status (column identifier), order, and the two
timestamps. -/
structure Task where
  id : Nat
  title : String
  description : String
  status : String
  order : Int
  createdAt : Nat
  updatedAt : Nat
deriving DecidableEq, Repr

/-- The body of the reorder request, after the `reorderValidation`
rules: `destinationIndex` is validated to be a non-negative integer, so
it is a `Nat`. -/
structure MoveRequest where
  taskId : Nat
  sourceStatus : String
  destinationStatus : String
  destinationIndex : Nat
deriving DecidableEq, Repr

/-- The `isIn(['todo', 'inprogress', 'done'])` validator applied to
`sourceStatus` and `destinationStatus`. -/
def validStatus (s : String) : Bool :=
  s == "todo" || s == "inprogress" || s == "done"

/-- Comparator of the Mongo sort `{order: 1}`. -/
def byOrder (a b : Task) : Prop := a.order ≤ b.order

instance : DecidableRel byOrder := fun a b =>
  inferInstanceAs (Decidable (a.order ≤ b.order))

/-- `Task.find({projectId, status}).sort({order: 1})`, applied to an
already filtered list. -/
def sortByOrder (l : List Task) : List Task := l.insertionSort byOrder

/-- Comparator of the Mongo sort `{order: -1}`. -/
def byOrderDesc (a b : Task) : Prop := b.order ≤ a.order

instance : DecidableRel byOrderDesc := fun a b =>
  inferInstanceAs (Decidable (b.order ≤ a.order))

instance : IsTotal Task byOrder := ⟨fun a b => le_total a.order b.order⟩

instance : IsTrans Task byOrder := ⟨fun _ _ _ h₁ h₂ => le_trans h₁ h₂⟩

instance : IsTotal Task byOrderDesc := ⟨fun a b => le_total b.order a.order⟩

instance : IsTrans Task byOrderDesc := ⟨fun _ _ _ h₁ h₂ => le_trans h₂ h₁⟩

/-- Descending sort used by the task creation route to find the task
with the greatest order. -/
def sortByOrderDesc (l : List Task) : List Task := l.insertionSort byOrderDesc

/-- `tasksInColumn.findIndex(...)` followed by `splice(currentIndex, 1)`:
locate the first task satisfying `p`, return it together with the list
with that one occurrence removed; `none` when `findIndex` returns -1
(the route then throws). -/
def findAndRemove (p : Task → Bool) : List Task → Option (Task × List Task)
  | [] => none
  | t :: ts =>
    if p t then some (t, ts)
    else
      match findAndRemove p ts with
      | some (x, rest) => some (x, t :: rest)
      | none => none

/-- `tasksInColumn.splice(destinationIndex, 0, movedTask)`: JavaScript
splice clamps an index beyond the length to the length, which is exactly
what `take`/`drop` give. -/
def spliceInsert (l : List Task) (i : Nat) (a : Task) : List Task :=
  l.take i ++ a :: l.drop i

/-- The `bulkOps` construction: task at position `index` of the spliced
column list is updated with `{order: index, updatedAt: now}`.  The
second argument is the position of the head of the remaining list. -/
def assignOrders (now : Nat) : Nat → List Task → List Task
  | _, [] => []
  | i, t :: ts => { t with order := (i : Int), updatedAt := now } :: assignOrders now (i + 1) ts

/-- Effect of one `updateOne` of the bulk write on one stored record:
if some update targets this id, `$set` its `order` and `updatedAt`. -/
def applyUpdate (updates : List Task) (now : Nat) (t : Task) : Task :=
  match updates.find? (fun u => u.id == t.id) with
  | some u => { t with order := u.order, updatedAt := now }
  | none => t

/-- `Task.bulkWrite(bulkOps)` over the whole stored task set. -/
def applyBulk (updates : List Task) (now : Nat) (db : List Task) : List Task :=
  db.map (applyUpdate updates now)

/-- Effect of cross-column step 1 on one record:
`Task.findByIdAndUpdate(taskId, {status: destinationStatus, order:
destinationIndex, updatedAt: now})`. -/
def setMovedFn (req : MoveRequest) (now : Nat) (t : Task) : Task :=
  if t.id == req.taskId then
    { t with status := req.destinationStatus, order := (req.destinationIndex : Int),
             updatedAt := now }
  else t

/-- Cross-column step 1 over the stored task set. -/
def setMovedTask (req : MoveRequest) (now : Nat) (db : List Task) : List Task :=
  db.map (setMovedFn req now)

/-- Effect of cross-column step 2 on one record:
`Task.updateMany({projectId, status: sourceStatus, order: {$gt:
task.order}}, {$inc: {order: -1}, updatedAt: now})`; `origOrder` is the
order the moved task had when it was read. -/
def closeGapFn (req : MoveRequest) (origOrder : Int) (now : Nat) (t : Task) : Task :=
  if t.status == req.sourceStatus && origOrder < t.order then
    { t with order := t.order - 1, updatedAt := now }
  else t

/-- Cross-column step 2 over the stored task set. -/
def closeSourceGap (req : MoveRequest) (origOrder : Int) (now : Nat)
    (db : List Task) : List Task :=
  db.map (closeGapFn req origOrder now)

/-- Effect of cross-column step 3 on one record:
`Task.updateMany({projectId, status: destinationStatus, order: {$gte:
destinationIndex}, _id: {$ne: taskId}}, {$inc: {order: 1}, updatedAt:
now})`. -/
def openGapFn (req : MoveRequest) (now : Nat) (t : Task) : Task :=
  if t.status == req.destinationStatus && (req.destinationIndex : Int) ≤ t.order
      && t.id != req.taskId then
    { t with order := t.order + 1, updatedAt := now }
  else t

/-- Cross-column step 3 over the stored task set. -/
def openDestGap (req : MoveRequest) (now : Nat) (db : List Task) : List Task :=
  db.map (openGapFn req now)

/-- Error outcomes of the reorder route: the 400 of
`handleValidationErrors`, the 404 `TASK_NOT_FOUND`, and the 500
`REORDER_ERROR` produced when the in-column branch throws `Task not
found in source column`. -/
inductive ReorderError where
  | validationError
  | taskNotFound
  | reorderError
deriving DecidableEq, Repr

/-- The body of `router.patch(:id/tasks/reorder)`.  On success it
returns the new stored task set together with the response payload,
which the route builds as `data: updatedTask` from
`Task.findById(taskId)` re-read after the writes. -/
def reorder (db : List Task) (req : MoveRequest) (now : Nat) :
    Except ReorderError (List Task × Option Task) :=
  if validStatus req.sourceStatus && validStatus req.destinationStatus then
    match db.find? (fun t => t.id == req.taskId) with
    | none => .error .taskNotFound
    | some task =>
      if req.sourceStatus == req.destinationStatus then
        let tasksInColumn := sortByOrder (db.filter (fun t => t.status == req.sourceStatus))
        match findAndRemove (fun t => t.id == req.taskId) tasksInColumn with
        | none => .error .reorderError
        | some (movedTask, remaining) =>
          let newColumn := spliceInsert remaining req.destinationIndex movedTask
          let updates := assignOrders now 0 newColumn
          let newDb := applyBulk updates now db
          .ok (newDb, newDb.find? (fun t => t.id == req.taskId))
      else
        let db1 := setMovedTask req now db
        let db2 := closeSourceGap req task.order now db1
        let db3 := openDestGap req now db2
        .ok (db3, db3.find? (fun t => t.id == req.taskId))
  else .error .validationError

/-- Order assigned by `POST /api/projects/:id/tasks`: the route reads
`Task.findOne({projectId, status}).sort({order: -1})` and uses
`lastTask ? lastTask.order + 1 : 0`. -/
def nextOrder (db : List Task) (status : String) : Int :=
  match (sortByOrderDesc (db.filter (fun t => t.status == status))).head? with
  | some lastTask => lastTask.order + 1
  | none => 0

/-- One droppable location of the drag result delivered by the drag and
drop library to `handleDragEnd`. -/
structure DropPos where
  droppableId : String
  index : Nat
deriving DecidableEq, Repr

/-- The argument of `handleDragEnd`: `destination` is null when the
task was dropped outside a droppable area. -/
structure DragEndResult where
  draggableId : Nat
  source : DropPos
  destination : Option DropPos
deriving DecidableEq, Repr

/-- Outcome of `projectsAPI.reorderTasks`: on success the client then
re-fetches the task list (`fetched`); every error response, timeout or
transport failure ends in the single catch block. -/
inductive ServerOutcome where
  | success (fetched : List Task)
  | failure
deriving DecidableEq, Repr

/-- Observable states of the board through one `handleDragEnd` run:
the state rendered right after the optimistic `setTasks`, the state
after the awaited call settles, and whether a reorder request was
issued at all. -/
structure BoardState where
  optimistic : List Task
  final : List Task
  requestSent : Bool
deriving DecidableEq, Repr

/-- The optimistic list built by `handleDragEnd`: remove the dragged
task, restamp its status, and re-insert it among the destination-column
tasks at `destination.index`, all other columns first. -/
def optimisticTasks (tasks : List Task) (task : Task) (destination : DropPos)
    (draggableId : Nat) : List Task :=
  let newTasks := tasks.eraseIdx (tasks.findIdx (fun t => t.id == draggableId))
  let updatedTask := { task with status := destination.droppableId }
  let destinationTasks := newTasks.filter (fun t => t.status == destination.droppableId)
  let insertIndex := destination.index
  let allTasksBeforeDestination :=
    newTasks.filter (fun t => t.status != destination.droppableId)
  allTasksBeforeDestination ++ destinationTasks.take insertIndex
    ++ updatedTask :: destinationTasks.drop insertIndex

/-- The `handleDragEnd` handler of `ProjectBoard.jsx`.  The three early
returns (no destination, same position, unknown draggable) change
nothing and send nothing; otherwise the optimistic list is rendered and
the server call is issued, whose outcome decides between the re-fetched
list and the captured `originalTasks` snapshot. -/
def handleDragEnd (tasks : List Task) (result : DragEndResult)
    (outcome : ServerOutcome) : BoardState :=
  match result.destination with
  | none => ⟨tasks, tasks, false⟩
  | some destination =>
    if destination.droppableId == result.source.droppableId
        && destination.index == result.source.index then
      ⟨tasks, tasks, false⟩
    else
      match tasks.find? (fun t => t.id == result.draggableId) with
      | none => ⟨tasks, tasks, false⟩
      | some task =>
        let originalTasks := tasks
        let finalTasks := optimisticTasks tasks task destination result.draggableId
        match outcome with
        | .success fetched => ⟨finalTasks, fetched, true⟩
        | .failure => ⟨finalTasks, originalTasks, true⟩

/-- Orders present in column `c`, in stored order. -/
def colOrders (db : List Task) (c : String) : List Int :=
  (db.filter (fun t => t.status == c)).map (fun t => t.order)

/-- The list `[0, 1, ..., n-1]` as integers. -/
def rangeOrders (n : Nat) : List Int :=
  (List.range n).map (Nat.cast : Nat → Int)

/-- Density invariant I1 for one column: its multiset of order values
is exactly `{0, ..., n-1}` for its `n` tasks. -/
def DenseCol (db : List Task) (c : String) : Prop :=
  List.Perm (colOrders db c) (rangeOrders (colOrders db c).length)

instance (db : List Task) (c : String) : Decidable (DenseCol db c) :=
  inferInstanceAs (Decidable (List.Perm _ _))

/-- A task with the volatile `updatedAt` timestamp normalised away;
used to compare states up to modification times. -/
def stripTime (t : Task) : Task := { t with updatedAt := 0 }

/-- The fields a move is never supposed to touch. -/
def frameFields (t : Task) : Nat × String × String × Nat :=
  (t.id, t.title, t.description, t.createdAt)

/-- Proof abbreviation: the order adjustment the cross-column source
update applies to one order value (`$gt o₀`, `$inc -1`). -/
def collapseOrder (o₀ o : Int) : Int := if o₀ < o then o - 1 else o

/-- Proof abbreviation: the order adjustment the cross-column
destination update applies to one order value (`$gte d`, `$inc 1`). -/
def openOrder (d : Nat) (o : Int) : Int := if (d : Int) ≤ o then o + 1 else o

theorem findAndRemove_perm {p : Task → Bool} :
    ∀ {l : List Task} {x : Task} {rest : List Task},
      findAndRemove p l = some (x, rest) → List.Perm l (x :: rest)
  | [], _, _, h => by simp [findAndRemove] at h
  | t :: ts, x, rest, h => by
    by_cases hp : p t
    · simp [findAndRemove, hp] at h
      obtain ⟨hx, hrest⟩ := h
      subst hx; subst hrest
      exact List.Perm.refl _
    · simp only [findAndRemove, hp, if_neg, Bool.false_eq_true, ite_false] at h
      cases hfr : findAndRemove p ts with
      | none => rw [hfr] at h; simp at h
      | some xr =>
        obtain ⟨x0, rest0⟩ := xr
        rw [hfr] at h
        simp at h
        obtain ⟨hx, hrest⟩ := h
        subst hx; subst hrest
        exact (List.Perm.cons t (findAndRemove_perm hfr)).trans (List.Perm.swap x0 t rest0)

theorem findAndRemove_prop {p : Task → Bool} :
    ∀ {l : List Task} {x : Task} {rest : List Task},
      findAndRemove p l = some (x, rest) → p x = true
  | [], _, _, h => by simp [findAndRemove] at h
  | t :: ts, x, rest, h => by
    by_cases hp : p t
    · simp [findAndRemove, hp] at h
      obtain ⟨hx, _⟩ := h
      subst hx; exact hp
    · simp only [findAndRemove, hp, Bool.false_eq_true, ite_false] at h
      cases hfr : findAndRemove p ts with
      | none => rw [hfr] at h; simp at h
      | some xr =>
        obtain ⟨x0, rest0⟩ := xr
        rw [hfr] at h
        simp at h
        obtain ⟨hx, _⟩ := h
        subst hx
        exact findAndRemove_prop hfr

theorem findAndRemove_isSome {p : Task → Bool} :
    ∀ {l : List Task}, (∃ a ∈ l, p a = true) →
      ∃ x rest, findAndRemove p l = some (x, rest)
  | [], h => by simp at h
  | t :: ts, h => by
    by_cases hp : p t
    · exact ⟨t, ts, by simp [findAndRemove, hp]⟩
    · obtain ⟨a, ha, hpa⟩ := h
      rcases List.mem_cons.mp ha with rfl | hats
      · exact absurd hpa hp
      · obtain ⟨x, rest, hfr⟩ := findAndRemove_isSome ⟨a, hats, hpa⟩
        exact ⟨x, t :: rest, by simp [findAndRemove, hp, hfr]⟩

theorem findAndRemove_eq_none {p : Task → Bool} :
    ∀ {l : List Task}, (∀ a ∈ l, p a = false) → findAndRemove p l = none
  | [], _ => rfl
  | t :: ts, h => by
    have hpt : p t = false := h t (List.mem_cons_self t ts)
    have hrec := findAndRemove_eq_none (fun a ha => h a (List.mem_cons_of_mem t ha))
    simp [findAndRemove, hpt, hrec]

theorem spliceInsert_perm (l : List Task) (i : Nat) (a : Task) :
    List.Perm (spliceInsert l i a) (a :: l) := by
  unfold spliceInsert
  have h := @List.perm_middle Task a (l.take i) (l.drop i)
  rw [List.take_append_drop] at h
  exact h

theorem spliceInsert_of_le {l : List Task} {i : Nat} (a : Task)
    (h : l.length ≤ i) : spliceInsert l i a = l ++ [a] := by
  unfold spliceInsert
  rw [List.take_of_length_le h, List.drop_of_length_le h]

theorem assignOrders_append (now : Nat) :
    ∀ (l₁ l₂ : List Task) (k : Nat),
      assignOrders now k (l₁ ++ l₂) =
        assignOrders now k l₁ ++ assignOrders now (k + l₁.length) l₂
  | [], l₂, k => by simp [assignOrders]
  | t :: ts, l₂, k => by
    have ih := assignOrders_append now ts l₂ (k + 1)
    have harith : k + 1 + ts.length = k + (ts.length + 1) := by omega
    simp only [List.cons_append, assignOrders, List.length_cons, List.append_eq,
      harith] at ih ⊢
    rw [ih]

theorem assignOrders_map_order (now : Nat) :
    ∀ (l : List Task) (k : Nat),
      (assignOrders now k l).map (fun t => t.order) =
        (List.range' k l.length).map (Nat.cast : Nat → Int)
  | [], k => by simp [assignOrders]
  | t :: ts, k => by
    have ih := assignOrders_map_order now ts (k + 1)
    simp only [assignOrders, List.map_cons, List.length_cons, List.range'_succ, ih]

theorem assignOrders_map_id (now : Nat) :
    ∀ (l : List Task) (k : Nat),
      (assignOrders now k l).map (fun t => t.id) = l.map (fun t => t.id)
  | [], _ => rfl
  | t :: ts, k => by
    simp only [assignOrders, List.map_cons]
    rw [assignOrders_map_id now ts (k + 1)]

theorem assignOrders_length (now : Nat) :
    ∀ (l : List Task) (k : Nat), (assignOrders now k l).length = l.length
  | [], _ => rfl
  | t :: ts, k => by
    simp only [assignOrders, List.length_cons]
    rw [assignOrders_length now ts (k + 1)]

theorem applyUpdate_id (updates : List Task) (now : Nat) (t : Task) :
    (applyUpdate updates now t).id = t.id := by
  unfold applyUpdate
  cases updates.find? (fun u => u.id == t.id) <;> rfl

theorem applyUpdate_status (updates : List Task) (now : Nat) (t : Task) :
    (applyUpdate updates now t).status = t.status := by
  unfold applyUpdate
  cases updates.find? (fun u => u.id == t.id) <;> rfl

theorem applyUpdate_frame (updates : List Task) (now : Nat) (t : Task) :
    frameFields (applyUpdate updates now t) = frameFields t := by
  unfold applyUpdate
  cases updates.find? (fun u => u.id == t.id) <;> rfl

theorem applyUpdate_of_not_mem (updates : List Task) (now : Nat) (t : Task)
    (h : ∀ u ∈ updates, u.id ≠ t.id) : applyUpdate updates now t = t := by
  unfold applyUpdate
  have hnone : updates.find? (fun u => u.id == t.id) = none := by
    rw [List.find?_eq_none]
    intro u hu
    simp [h u hu]
  rw [hnone]

/-- The bulk write built from `assignOrders` maps each task of the
spliced column to exactly its own update: applying the per-record
update function across the column list reproduces the update list. -/
theorem map_applyUpdate_assignOrders (now : Nat) :
    ∀ (l : List Task) (k : Nat), (l.map (fun t => t.id)).Nodup →
      l.map (applyUpdate (assignOrders now k l) now) = assignOrders now k l
  | [], _, _ => rfl
  | t :: ts, k, hnd => by
    simp only [List.map_cons, List.nodup_cons, List.mem_map] at hnd
    obtain ⟨hhead, htail⟩ := hnd
    have hne : ∀ x ∈ ts, x.id ≠ t.id := by
      intro x hx heq
      exact hhead ⟨x, hx, heq⟩
    simp only [assignOrders, List.map_cons]
    have hheadeq : applyUpdate ({ t with order := (k : Int), updatedAt := now } ::
        assignOrders now (k + 1) ts) now t =
        { t with order := (k : Int), updatedAt := now } := by
      unfold applyUpdate
      simp
    have hstep : ∀ x ∈ ts,
        applyUpdate ({ t with order := (k : Int), updatedAt := now } ::
          assignOrders now (k + 1) ts) now x =
        applyUpdate (assignOrders now (k + 1) ts) now x := by
      intro x hx
      unfold applyUpdate
      rw [List.find?_cons_of_neg]
      simp only [beq_iff_eq]
      exact fun h => hne x hx h.symm
    rw [hheadeq, List.map_congr_left hstep,
      map_applyUpdate_assignOrders now ts (k + 1) htail]

/-- Filtering commutes with a map that leaves the filtered property
unchanged. -/
theorem filter_map_comm (db : List Task) (f : Task → Task) (p : Task → Bool)
    (h : ∀ t, p (f t) = p t) :
    (db.map f).filter p = (db.filter p).map f := by
  rw [List.filter_map]
  congr 1
  apply List.filter_congr
  intro t _
  exact h t

/-- The ids of a filtered sublist of a store with unique ids are
unique. -/
theorem nodup_ids_filter (db : List Task) (p : Task → Bool)
    (h : (db.map (fun t => t.id)).Nodup) :
    ((db.filter p).map (fun t => t.id)).Nodup :=
  ((db.filter_sublist).map (fun t => t.id)).nodup h

/-- Two members of a store with unique ids that share an id are the
same record. -/
theorem eq_of_mem_of_id_eq {db : List Task} {a b : Task}
    (h : (db.map (fun t => t.id)).Nodup) (ha : a ∈ db) (hb : b ∈ db)
    (hid : a.id = b.id) : a = b :=
  List.inj_on_of_nodup_map h ha hb hid

/-- In a store with unique ids, `find?` by the id of a member returns
that member. -/
theorem find?_id_of_mem {db : List Task} {a : Task}
    (h : (db.map (fun t => t.id)).Nodup) (ha : a ∈ db) :
    db.find? (fun t => t.id == a.id) = some a := by
  have hsome : (db.find? (fun t => t.id == a.id)).isSome := by
    rw [List.find?_isSome]
    exact ⟨a, ha, by simp⟩
  obtain ⟨b, hb⟩ := Option.isSome_iff_exists.mp hsome
  have hbm : b ∈ db := List.mem_of_find?_eq_some hb
  have hbid : b.id = a.id := by simpa using List.find?_some hb
  rw [hb, eq_of_mem_of_id_eq h hbm ha hbid]

/-- Closing a gap: deleting `k` from `0..n-1` and shifting the larger
values down produces `0..n-2`. -/
theorem range_erase_collapse :
    ∀ (n k : Nat), k < n →
      ((List.range n).erase k).map (fun j => if k < j then j - 1 else j) =
        List.range (n - 1)
  | 0, _, h => absurd h (Nat.not_lt_zero _)
  | n + 1, k, h => by
    rw [List.range_succ]
    by_cases hk : k < n
    · have hkmem : k ∈ List.range n := List.mem_range.mpr hk
      rw [List.erase_append_left _ hkmem, List.map_append,
        range_erase_collapse n k hk]
      have : (if k < n then n - 1 else n) = n - 1 := by simp [hk]
      rw [List.map_cons, List.map_nil, this]
      have hrange : List.range (n - 1) ++ [n - 1] = List.range n := by
        rw [← List.range_succ]
        congr 1
        omega
      rw [hrange]
      simp
    · have hkn : k = n := by omega
      subst hkn
      have hnot : k ∉ List.range k := by simp
      rw [List.erase_append_right _ hnot]
      simp only [List.erase_cons_head, List.append_nil, Nat.add_sub_cancel]
      apply List.map_congr_left ?_ |>.trans (List.map_id _)
      intro j hj
      have : ¬ k < j := by
        have := List.mem_range.mp hj
        omega
      simp [this]

/-- Opening a gap: shifting the values of `0..m-1` that are at least
`d` up by one and adding `d` itself yields a permutation of `0..m`. -/
theorem range_open_perm (d : Nat) :
    ∀ (m : Nat), d ≤ m →
      List.Perm (d :: (List.range m).map (fun j => if d ≤ j then j + 1 else j))
        (List.range (m + 1)) := by
  intro m
  induction m with
  | zero =>
    intro h
    have hd : d = 0 := Nat.le_zero.mp h
    subst hd
    decide
  | succ m ih =>
    intro h
    rcases Nat.lt_or_ge d (m + 1) with hdm | hdm
    · have hdm' : d ≤ m := by omega
      rw [List.range_succ, List.map_append]
      have hmap : (if d ≤ m then m + 1 else m) = m + 1 := by simp [hdm']
      rw [List.map_cons, List.map_nil, hmap]
      have hstep : d :: ((List.range m).map (fun j => if d ≤ j then j + 1 else j)
          ++ [m + 1]) =
          (d :: (List.range m).map (fun j => if d ≤ j then j + 1 else j))
          ++ [m + 1] := rfl
      rw [hstep]
      have happ := (ih hdm').append_right [m + 1]
      refine happ.trans ?_
      rw [← List.range_succ]
    · have hd : d = m + 1 := by omega
      subst hd
      have hident : (List.range (m + 1)).map
          (fun j => if m + 1 ≤ j then j + 1 else j) = List.range (m + 1) := by
        apply List.map_congr_left ?_ |>.trans (List.map_id _)
        intro j hj
        have := List.mem_range.mp hj
        have : ¬ m + 1 ≤ j := by omega
        simp [this]
      have hsucc : List.range (m + 1 + 1) = List.range (m + 1) ++ [m + 1] :=
        List.range_succ (m + 1)
      rw [hident, hsucc]
      exact (List.perm_append_singleton _ _).symm

/-- Integer version of gap closing: if `o₀` together with the list `S`
makes up exactly the dense orders `0..n-1`, then shifting the entries
of `S` above `o₀` down produces the dense orders `0..n-2`. -/
theorem collapse_perm {S : List Int} {o₀ : Int} {n : Nat}
    (h : List.Perm (o₀ :: S) (rangeOrders n)) :
    List.Perm (S.map (collapseOrder o₀)) (rangeOrders (n - 1)) := by
  have hmem : o₀ ∈ rangeOrders n := h.subset (List.mem_cons_self o₀ S)
  obtain ⟨k, hk, hko⟩ := List.mem_map.mp hmem
  have hkn : k < n := List.mem_range.mp hk
  subst hko
  have hS : List.Perm S ((rangeOrders n).erase ((k : Int))) :=
    (List.cons_perm_iff_perm_erase.mp h).2
  refine (hS.map (collapseOrder (k : Int))).trans ?_
  have herase : (rangeOrders n).erase ((k : Int)) =
      ((List.range n).erase k).map (Nat.cast : Nat → Int) := by
    rw [rangeOrders, ← List.map_erase Nat.cast_injective]
  rw [herase, List.map_map]
  have hpt : ∀ j ∈ (List.range n).erase k,
      ((collapseOrder (k : Int)) ∘ (Nat.cast : Nat → Int)) j =
        ((Nat.cast : Nat → Int) ∘ fun j => if k < j then j - 1 else j) j := by
    intro j _
    simp only [Function.comp_apply, collapseOrder]
    by_cases hkj : k < j
    · have hj1 : 1 ≤ j := by omega
      simp only [hkj, if_true, Nat.cast_lt, if_pos hkj]
      rw [Nat.cast_sub hj1]
      simp
    · simp only [Nat.cast_lt, hkj, if_neg, if_false]
  rw [List.map_congr_left hpt, ← List.map_map,
    range_erase_collapse n k hkn]
  exact List.Perm.refl _

/-- Integer version of gap opening: if `S` holds exactly the dense
orders `0..m-1` and `d ≤ m`, then shifting the entries at least `d` up
and adding the new order `d` yields exactly `0..m`. -/
theorem open_perm {S : List Int} {d m : Nat}
    (h : List.Perm S (rangeOrders m)) (hdm : d ≤ m) :
    List.Perm ((d : Int) :: S.map (openOrder d)) (rangeOrders (m + 1)) := by
  refine (List.Perm.cons _ (h.map (openOrder d))).trans ?_
  have hpt : ∀ j ∈ List.range m,
      ((openOrder d) ∘ (Nat.cast : Nat → Int)) j =
        ((Nat.cast : Nat → Int) ∘ fun j => if d ≤ j then j + 1 else j) j := by
    intro j _
    simp only [Function.comp_apply, openOrder]
    by_cases hdj : d ≤ j
    · simp only [Nat.cast_le, hdj, if_true]
      push_cast
      ring
    · simp only [Nat.cast_le, hdj, if_neg, if_false]
  rw [rangeOrders, List.map_map, List.map_congr_left hpt, ← List.map_map]
  have hlift := (range_open_perm d m hdm).map (Nat.cast : Nat → Int)
  rw [List.map_cons] at hlift
  exact hlift.trans (by rw [rangeOrders])

theorem rangeOrders_length (n : Nat) : (rangeOrders n).length = n := by
  simp [rangeOrders]

/-- After the in-column bulk write, the column holds exactly the
records of the update list. -/
theorem inColumn_filter_perm (db newColumn : List Task) (c : String) (now : Nat)
    (hids : (db.map (fun t => t.id)).Nodup)
    (hperm : List.Perm newColumn (db.filter (fun t => t.status == c))) :
    List.Perm ((applyBulk (assignOrders now 0 newColumn) now db).filter
        (fun t => t.status == c))
      (assignOrders now 0 newColumn) := by
  unfold applyBulk
  rw [filter_map_comm db _ _
    (fun t => by rw [applyUpdate_status])]
  refine (hperm.map _).symm.trans ?_
  have hnc : (newColumn.map (fun t => t.id)).Nodup := by
    have hf := nodup_ids_filter db (fun t => t.status == c) hids
    exact ((hperm.map (fun t => t.id)).nodup_iff).mpr hf
  rw [map_applyUpdate_assignOrders now newColumn 0 hnc]

/-- The in-column bulk write leaves the rewritten column dense: its
orders are exactly `0..n-1`. -/
theorem inColumn_dense (db newColumn : List Task) (c : String) (now : Nat)
    (hids : (db.map (fun t => t.id)).Nodup)
    (hperm : List.Perm newColumn (db.filter (fun t => t.status == c))) :
    DenseCol (applyBulk (assignOrders now 0 newColumn) now db) c := by
  have h1 : List.Perm (colOrders (applyBulk (assignOrders now 0 newColumn) now db) c)
      ((assignOrders now 0 newColumn).map (fun t => t.order)) :=
    (inColumn_filter_perm db newColumn c now hids hperm).map _
  have h2 : (assignOrders now 0 newColumn).map (fun t => t.order) =
      rangeOrders newColumn.length := by
    rw [assignOrders_map_order, rangeOrders, List.range_eq_range']
  rw [h2] at h1
  have hlen : (colOrders (applyBulk (assignOrders now 0 newColumn) now db) c).length =
      newColumn.length := by
    rw [h1.length_eq, rangeOrders_length]
  unfold DenseCol
  rw [hlen]
  exact h1

/-- Step 1 leaves every other record alone. -/
theorem setMovedFn_of_ne (req : MoveRequest) (now : Nat) (t : Task)
    (h : ¬ t.id = req.taskId) : setMovedFn req now t = t := by
  simp [setMovedFn, h]

/-- Step 1 restamps the moved record. -/
theorem setMovedFn_of_eq (req : MoveRequest) (now : Nat) (t : Task)
    (h : t.id = req.taskId) :
    setMovedFn req now t =
      { t with status := req.destinationStatus,
               order := (req.destinationIndex : Int), updatedAt := now } := by
  simp [setMovedFn, h]

/-- Step 2 leaves records outside the source column alone. -/
theorem closeGapFn_of_not_src (req : MoveRequest) (o₀ : Int) (now : Nat) (t : Task)
    (h : ¬ t.status = req.sourceStatus) : closeGapFn req o₀ now t = t := by
  simp [closeGapFn, h]

/-- Step 2 on a record of the source column. -/
theorem closeGapFn_of_src (req : MoveRequest) (o₀ : Int) (now : Nat) (t : Task)
    (h : t.status = req.sourceStatus) :
    closeGapFn req o₀ now t =
      if o₀ < t.order then { t with order := t.order - 1, updatedAt := now }
      else t := by
  simp [closeGapFn, h]

/-- Step 3 leaves records outside the destination column alone. -/
theorem openGapFn_of_not_dest (req : MoveRequest) (now : Nat) (t : Task)
    (h : ¬ t.status = req.destinationStatus) : openGapFn req now t = t := by
  simp [openGapFn, h]

/-- Step 3 excludes the moved record by id. -/
theorem openGapFn_of_id (req : MoveRequest) (now : Nat) (t : Task)
    (h : t.id = req.taskId) : openGapFn req now t = t := by
  simp [openGapFn, h]

/-- Step 3 on another record of the destination column. -/
theorem openGapFn_of_dest (req : MoveRequest) (now : Nat) (t : Task)
    (h : t.status = req.destinationStatus) (hid : ¬ t.id = req.taskId) :
    openGapFn req now t =
      if (req.destinationIndex : Int) ≤ t.order then
        { t with order := t.order + 1, updatedAt := now }
      else t := by
  simp [openGapFn, h, hid]

/-- Status of a record after the three cross-column updates: only the
moved task changes column. -/
theorem crossFn_status (req : MoveRequest) (o₀ : Int) (now : Nat) (t : Task) :
    (openGapFn req now (closeGapFn req o₀ now (setMovedFn req now t))).status =
      if t.id == req.taskId then req.destinationStatus else t.status := by
  unfold setMovedFn closeGapFn openGapFn
  split_ifs <;> simp_all

/-- The moved task after the three cross-column updates. -/
theorem crossFn_moved (req : MoveRequest) (o₀ : Int) (now : Nat) (t : Task)
    (hid : t.id = req.taskId) (hne : ¬ req.sourceStatus = req.destinationStatus) :
    openGapFn req now (closeGapFn req o₀ now (setMovedFn req now t)) =
      { t with status := req.destinationStatus,
               order := (req.destinationIndex : Int), updatedAt := now } := by
  rw [setMovedFn_of_eq req now t hid,
    closeGapFn_of_not_src req o₀ now _ (by simpa using fun h => hne h.symm),
    openGapFn_of_id req now _ (by simpa using hid)]

/-- A task of the source column other than the moved one: only the
gap-closing decrement applies. -/
theorem crossFn_source (req : MoveRequest) (o₀ : Int) (now : Nat) (t : Task)
    (hid : ¬ t.id = req.taskId) (hst : t.status = req.sourceStatus)
    (hne : ¬ req.sourceStatus = req.destinationStatus) :
    openGapFn req now (closeGapFn req o₀ now (setMovedFn req now t)) =
      if o₀ < t.order then { t with order := t.order - 1, updatedAt := now }
      else t := by
  have hd : ¬ t.status = req.destinationStatus := by rw [hst]; exact hne
  rw [setMovedFn_of_ne req now t hid, closeGapFn_of_src req o₀ now t hst]
  split
  · rw [openGapFn_of_not_dest req now _ (by simpa using hd)]
  · rw [openGapFn_of_not_dest req now _ hd]

/-- A task of the destination column other than the moved one: only
the gap-opening increment applies. -/
theorem crossFn_dest (req : MoveRequest) (o₀ : Int) (now : Nat) (t : Task)
    (hid : ¬ t.id = req.taskId) (hst : t.status = req.destinationStatus)
    (hne : ¬ req.sourceStatus = req.destinationStatus) :
    openGapFn req now (closeGapFn req o₀ now (setMovedFn req now t)) =
      if (req.destinationIndex : Int) ≤ t.order then
        { t with order := t.order + 1, updatedAt := now }
      else t := by
  have hs : ¬ t.status = req.sourceStatus := by
    rw [hst]
    exact fun h => hne h.symm
  rw [setMovedFn_of_ne req now t hid, closeGapFn_of_not_src req o₀ now t hs,
    openGapFn_of_dest req now t hst hid]

/-- A task of neither touched column is left alone by a cross-column
move. -/
theorem crossFn_other (req : MoveRequest) (o₀ : Int) (now : Nat) (t : Task)
    (hid : ¬ t.id = req.taskId) (hs1 : ¬ t.status = req.sourceStatus)
    (hs2 : ¬ t.status = req.destinationStatus) :
    openGapFn req now (closeGapFn req o₀ now (setMovedFn req now t)) = t := by
  rw [setMovedFn_of_ne req now t hid, closeGapFn_of_not_src req o₀ now t hs1,
    openGapFn_of_not_dest req now t hs2]

/-- The three cross-column updates in sequence are one pointwise map
over the stored task set. -/
theorem crossDb_eq_map (req : MoveRequest) (o₀ : Int) (now : Nat) (db : List Task) :
    openDestGap req now (closeSourceGap req o₀ now (setMovedTask req now db)) =
      db.map (fun t => openGapFn req now (closeGapFn req o₀ now (setMovedFn req now t))) := by
  unfold openDestGap closeSourceGap setMovedTask
  rw [List.map_map, List.map_map]
  rfl

/-- Orders of the source column after a cross-column move: the
remaining source tasks with the gap-closing shift applied. -/
theorem cross_src_orders (db : List Task) (req : MoveRequest) (o₀ : Int) (now : Nat)
    (hne : ¬ req.sourceStatus = req.destinationStatus) :
    colOrders (db.map (fun t =>
        openGapFn req now (closeGapFn req o₀ now (setMovedFn req now t))))
      req.sourceStatus =
    ((db.filter (fun t => !(t.id == req.taskId) && t.status == req.sourceStatus)).map
      (fun t => t.order)).map (collapseOrder o₀) := by
  unfold colOrders
  rw [List.filter_map]
  have hpred : ∀ t ∈ db,
      ((fun t => t.status == req.sourceStatus) ∘ (fun t =>
        openGapFn req now (closeGapFn req o₀ now (setMovedFn req now t)))) t =
      (!(t.id == req.taskId) && t.status == req.sourceStatus) := by
    intro t _
    simp only [Function.comp_apply, crossFn_status]
    by_cases h : t.id = req.taskId
    · simp [h, hne]
      exact fun hcontra => hne hcontra.symm
    · simp [h]
  rw [List.filter_congr hpred, List.map_map, List.map_map]
  apply List.map_congr_left
  intro t ht
  have hmem := List.mem_filter.mp ht
  have hprops := hmem.2
  simp only [Bool.and_eq_true, Bool.not_eq_true', beq_eq_false_iff_ne, ne_eq,
    beq_iff_eq] at hprops
  obtain ⟨hidne, hstat⟩ := hprops
  simp only [Function.comp_apply]
  rw [crossFn_source req o₀ now t hidne hstat hne]
  unfold collapseOrder
  split <;> rfl

/-- Orders of the source column before a cross-column move split into
the moved task and the rest. -/
theorem cross_src_split (db : List Task) (req : MoveRequest) (task : Task)
    (hids : (db.map (fun t => t.id)).Nodup)
    (htask : task ∈ db) (hid : task.id = req.taskId)
    (hst : task.status = req.sourceStatus) :
    List.Perm (colOrders db req.sourceStatus)
      (task.order :: ((db.filter (fun t =>
        !(t.id == req.taskId) && t.status == req.sourceStatus)).map
          (fun t => t.order))) := by
  obtain ⟨l₁, l₂, rfl⟩ := List.append_of_mem htask
  rw [List.map_append, List.map_cons, List.nodup_append] at hids
  obtain ⟨hn1, hn2, hdisj⟩ := hids
  have htid2 : task.id ∉ l₂.map (fun t => t.id) := (List.nodup_cons.mp hn2).1
  have htid1 : task.id ∉ l₁.map (fun t => t.id) := fun hm =>
    hdisj hm (List.mem_cons_self _ _)
  have hne1 : ∀ t ∈ l₁, ¬ t.id = req.taskId := by
    intro t ht he
    exact htid1 (List.mem_map.mpr ⟨t, ht, by rw [he, hid]⟩)
  have hne2 : ∀ t ∈ l₂, ¬ t.id = req.taskId := by
    intro t ht he
    exact htid2 (List.mem_map.mpr ⟨t, ht, by rw [he, hid]⟩)
  have hq1 : ∀ t ∈ l₁, (!(t.id == req.taskId) && t.status == req.sourceStatus) =
      (t.status == req.sourceStatus) := by
    intro t ht
    simp [hne1 t ht]
  have hq2 : ∀ t ∈ l₂, (!(t.id == req.taskId) && t.status == req.sourceStatus) =
      (t.status == req.sourceStatus) := by
    intro t ht
    simp [hne2 t ht]
  unfold colOrders
  rw [List.filter_append, List.filter_cons_of_pos (by simp [hst]),
    List.filter_append, List.filter_cons_of_neg (by simp [hid]),
    List.filter_congr hq1, List.filter_congr hq2,
    List.map_append, List.map_cons, List.map_append]
  exact List.perm_middle

/-- Orders of the destination column after a cross-column move: the
moved task at `destinationIndex` plus the previous destination orders
with the gap-opening shift applied. -/
theorem cross_dest_orders (db : List Task) (req : MoveRequest) (task : Task) (now : Nat)
    (hids : (db.map (fun t => t.id)).Nodup)
    (htask : task ∈ db) (hid : task.id = req.taskId)
    (hst : task.status = req.sourceStatus)
    (hne : ¬ req.sourceStatus = req.destinationStatus) :
    List.Perm (colOrders (db.map (fun t =>
        openGapFn req now (closeGapFn req task.order now (setMovedFn req now t))))
      req.destinationStatus)
      ((req.destinationIndex : Int) ::
        (colOrders db req.destinationStatus).map (openOrder req.destinationIndex)) := by
  unfold colOrders
  rw [List.filter_map]
  have hpred : ∀ t ∈ db,
      ((fun t => t.status == req.destinationStatus) ∘ (fun t =>
        openGapFn req now (closeGapFn req task.order now (setMovedFn req now t)))) t =
      ((t.id == req.taskId) || t.status == req.destinationStatus) := by
    intro t _
    simp only [Function.comp_apply, crossFn_status]
    by_cases h : t.id = req.taskId
    · simp [h]
    · simp [h]
  rw [List.filter_congr hpred]
  obtain ⟨l₁, l₂, rfl⟩ := List.append_of_mem htask
  rw [List.map_append, List.map_cons, List.nodup_append] at hids
  obtain ⟨hn1, hn2, hdisj⟩ := hids
  have htid2 : task.id ∉ l₂.map (fun t => t.id) := (List.nodup_cons.mp hn2).1
  have htid1 : task.id ∉ l₁.map (fun t => t.id) := fun hm =>
    hdisj hm (List.mem_cons_self _ _)
  have hne1 : ∀ t ∈ l₁, ¬ t.id = req.taskId := by
    intro t ht he
    exact htid1 (List.mem_map.mpr ⟨t, ht, by rw [he, hid]⟩)
  have hne2 : ∀ t ∈ l₂, ¬ t.id = req.taskId := by
    intro t ht he
    exact htid2 (List.mem_map.mpr ⟨t, ht, by rw [he, hid]⟩)
  have hr1 : ∀ t ∈ l₁, ((t.id == req.taskId) || t.status == req.destinationStatus) =
      (t.status == req.destinationStatus) := by
    intro t ht
    simp [hne1 t ht]
  have hr2 : ∀ t ∈ l₂, ((t.id == req.taskId) || t.status == req.destinationStatus) =
      (t.status == req.destinationStatus) := by
    intro t ht
    simp [hne2 t ht]
  have hdestfalse : (task.status == req.destinationStatus) = false := by
    simp only [hst, beq_eq_false_iff_ne, ne_eq]
    exact hne
  have efilter1 : List.filter (fun t =>
      (t.id == req.taskId || t.status == req.destinationStatus)) (l₁ ++ task :: l₂) =
      List.filter (fun t => t.status == req.destinationStatus) l₁ ++ task ::
        List.filter (fun t => t.status == req.destinationStatus) l₂ := by
    rw [List.filter_append, List.filter_cons, List.filter_congr hr1,
      List.filter_congr hr2]
    simp only [hid, beq_self_eq_true, Bool.true_or, if_true]
  have efilter2 : List.filter (fun t => t.status == req.destinationStatus)
      (l₁ ++ task :: l₂) =
      List.filter (fun t => t.status == req.destinationStatus) l₁ ++
        List.filter (fun t => t.status == req.destinationStatus) l₂ := by
    rw [List.filter_append, List.filter_cons]
    simp only [hdestfalse, Bool.false_eq_true, if_false]
  rw [efilter1, efilter2]
  simp only [List.map_append, List.map_cons, List.map_map]
  have hmv : (openGapFn req now (closeGapFn req task.order now
      (setMovedFn req now task))).order = (req.destinationIndex : Int) := by
    rw [crossFn_moved req task.order now task hid hne]
  have hconv : ∀ (l : List Task), (∀ t ∈ l, ¬ t.id = req.taskId) →
      (l.filter (fun t => t.status == req.destinationStatus)).map
        ((fun t => t.order) ∘ (fun t =>
          openGapFn req now (closeGapFn req task.order now (setMovedFn req now t)))) =
      (l.filter (fun t => t.status == req.destinationStatus)).map
        ((openOrder req.destinationIndex) ∘ (fun t => t.order)) := by
    intro l hl
    apply List.map_congr_left
    intro t ht
    have hm := List.mem_filter.mp ht
    have hstat : t.status = req.destinationStatus := by simpa using hm.2
    simp only [Function.comp_apply]
    rw [crossFn_dest req task.order now t (hl t hm.1) hstat hne]
    unfold openOrder
    split <;> rfl
  rw [hconv l₁ hne1, hconv l₂ hne2, hmv]
  exact List.perm_middle

/-- A well-formed cross-column move keeps both touched columns dense,
provided the requested index does not exceed the destination size. -/
theorem cross_dense (db : List Task) (req : MoveRequest) (task : Task) (now : Nat)
    (hids : (db.map (fun t => t.id)).Nodup)
    (htask : task ∈ db) (hid : task.id = req.taskId)
    (hst : task.status = req.sourceStatus)
    (hne : ¬ req.sourceStatus = req.destinationStatus)
    (hdsrc : DenseCol db req.sourceStatus)
    (hddst : DenseCol db req.destinationStatus)
    (hidx : req.destinationIndex ≤ (colOrders db req.destinationStatus).length) :
    DenseCol (db.map (fun t =>
      openGapFn req now (closeGapFn req task.order now (setMovedFn req now t))))
      req.sourceStatus ∧
    DenseCol (db.map (fun t =>
      openGapFn req now (closeGapFn req task.order now (setMovedFn req now t))))
      req.destinationStatus := by
  constructor
  · have hsplit := cross_src_split db req task hids htask hid hst
    have hcons : List.Perm (task.order :: ((db.filter (fun t =>
        !(t.id == req.taskId) && t.status == req.sourceStatus)).map
          (fun t => t.order))) (rangeOrders (colOrders db req.sourceStatus).length) :=
      hsplit.symm.trans hdsrc
    have hcol := collapse_perm hcons
    have heq := cross_src_orders db req task.order now hne
    unfold DenseCol
    rw [heq]
    have hlen : (((db.filter (fun t =>
        !(t.id == req.taskId) && t.status == req.sourceStatus)).map
          (fun t => t.order)).map (collapseOrder task.order)).length =
        (colOrders db req.sourceStatus).length - 1 := by
      rw [hcol.length_eq, rangeOrders_length]
    rw [hlen]
    exact hcol
  · have hdest := cross_dest_orders db req task now hids htask hid hst hne
    have hopen := open_perm hddst hidx
    have hcol := hdest.trans hopen
    unfold DenseCol
    have hlen : (colOrders (db.map (fun t =>
        openGapFn req now (closeGapFn req task.order now (setMovedFn req now t))))
        req.destinationStatus).length =
        (colOrders db req.destinationStatus).length + 1 := by
      rw [hcol.length_eq, rangeOrders_length]
    rw [hlen]
    exact hcol

/-- Evaluation of the reorder route on a cross-column request: it
always succeeds, applying the three updates in sequence. -/
theorem reorder_cross_eq (db : List Task) (req : MoveRequest) (now : Nat) (task : Task)
    (hv : (validStatus req.sourceStatus && validStatus req.destinationStatus) = true)
    (hfind : db.find? (fun t => t.id == req.taskId) = some task)
    (hne : ¬ req.sourceStatus = req.destinationStatus) :
    reorder db req now = .ok
      (db.map (fun t =>
        openGapFn req now (closeGapFn req task.order now (setMovedFn req now t))),
       (db.map (fun t =>
        openGapFn req now (closeGapFn req task.order now (setMovedFn req now t)))).find?
         (fun t => t.id == req.taskId)) := by
  have hne2 : (req.sourceStatus == req.destinationStatus) = false := by
    simp only [beq_eq_false_iff_ne, ne_eq]
    exact hne
  unfold reorder
  rw [if_pos hv, hfind]
  simp only [hne2, Bool.false_eq_true, if_false, crossDb_eq_map]

/-- Evaluation of the reorder route on an in-column request whose task
is found in the column: the whole column is renumbered by one bulk
write. -/
theorem reorder_incol_eq (db : List Task) (req : MoveRequest) (now : Nat)
    (task moved : Task) (rest : List Task)
    (hv : (validStatus req.sourceStatus && validStatus req.destinationStatus) = true)
    (hfind : db.find? (fun t => t.id == req.taskId) = some task)
    (heq : req.sourceStatus = req.destinationStatus)
    (hfr : findAndRemove (fun t => t.id == req.taskId)
      (sortByOrder (db.filter (fun t => t.status == req.sourceStatus))) =
        some (moved, rest)) :
    reorder db req now = .ok
      (applyBulk (assignOrders now 0 (spliceInsert rest req.destinationIndex moved)) now db,
       (applyBulk (assignOrders now 0 (spliceInsert rest req.destinationIndex moved)) now db).find?
         (fun t => t.id == req.taskId)) := by
  have heq2 : (req.sourceStatus == req.destinationStatus) = true := by
    simp [heq]
  unfold reorder
  rw [if_pos hv, hfind]
  simp only [heq2, if_true, hfr]

/-- Evaluation of the reorder route on an in-column request whose task
is not in the stated column: the route throws before any write and
answers with the 500 `REORDER_ERROR`. -/
theorem reorder_incol_err (db : List Task) (req : MoveRequest) (now : Nat)
    (task : Task)
    (hv : (validStatus req.sourceStatus && validStatus req.destinationStatus) = true)
    (hfind : db.find? (fun t => t.id == req.taskId) = some task)
    (heq : req.sourceStatus = req.destinationStatus)
    (hfr : findAndRemove (fun t => t.id == req.taskId)
      (sortByOrder (db.filter (fun t => t.status == req.sourceStatus))) = none) :
    reorder db req now = .error .reorderError := by
  have heq2 : (req.sourceStatus == req.destinationStatus) = true := by
    simp [heq]
  unfold reorder
  rw [if_pos hv, hfind]
  simp only [heq2, if_true, hfr]

theorem setMovedFn_id (req : MoveRequest) (now : Nat) (t : Task) :
    (setMovedFn req now t).id = t.id := by
  unfold setMovedFn
  split <;> rfl

theorem closeGapFn_id (req : MoveRequest) (o₀ : Int) (now : Nat) (t : Task) :
    (closeGapFn req o₀ now t).id = t.id := by
  unfold closeGapFn
  split <;> rfl

theorem openGapFn_id (req : MoveRequest) (now : Nat) (t : Task) :
    (openGapFn req now t).id = t.id := by
  unfold openGapFn
  split <;> rfl

theorem crossFn_id (req : MoveRequest) (o₀ : Int) (now : Nat) (t : Task) :
    (openGapFn req now (closeGapFn req o₀ now (setMovedFn req now t))).id = t.id := by
  rw [openGapFn_id, closeGapFn_id, setMovedFn_id]

theorem crossFn_frame (req : MoveRequest) (o₀ : Int) (now : Nat) (t : Task) :
    frameFields (openGapFn req now (closeGapFn req o₀ now (setMovedFn req now t))) =
      frameFields t := by
  unfold setMovedFn closeGapFn openGapFn frameFields
  split <;> split <;> split <;> rfl

/-- `find?` by id over an id-preserving map. -/
theorem find?_map_id_pred (db : List Task) (f : Task → Task)
    (hf : ∀ t, (f t).id = t.id) (k : Nat) :
    (db.map f).find? (fun t => t.id == k) =
      (db.find? (fun t => t.id == k)).map f := by
  induction db with
  | nil => rfl
  | cons t ts ih =>
    rw [List.map_cons, List.find?_cons, List.find?_cons, hf t]
    cases t.id == k with
    | true => rfl
    | false => exact ih

/-- Column orders only depend on the time-stripped records. -/
theorem colOrders_via_strip (db : List Task) (c : String) :
    colOrders db c =
      ((db.map stripTime).filter (fun t => t.status == c)).map (fun t => t.order) := by
  rw [filter_map_comm db stripTime (fun t => t.status == c) (fun t => rfl),
    List.map_map]
  rfl

/-- The reorder route with its local bindings substituted, for case
analysis in proofs. -/
theorem reorder_eq (db : List Task) (req : MoveRequest) (now : Nat) :
    reorder db req now =
      if (validStatus req.sourceStatus && validStatus req.destinationStatus) = true then
        match db.find? (fun t => t.id == req.taskId) with
        | none => .error .taskNotFound
        | some task =>
          if (req.sourceStatus == req.destinationStatus) = true then
            match findAndRemove (fun t => t.id == req.taskId)
              (sortByOrder (db.filter (fun t => t.status == req.sourceStatus))) with
            | none => .error .reorderError
            | some (movedTask, remaining) =>
              .ok (applyBulk (assignOrders now 0
                    (spliceInsert remaining req.destinationIndex movedTask)) now db,
                (applyBulk (assignOrders now 0
                    (spliceInsert remaining req.destinationIndex movedTask)) now db).find?
                  (fun t => t.id == req.taskId))
          else
            .ok (openDestGap req now (closeSourceGap req task.order now
                  (setMovedTask req now db)),
              (openDestGap req now (closeSourceGap req task.order now
                  (setMovedTask req now db))).find? (fun t => t.id == req.taskId))
      else .error .validationError := rfl

/-- Dissection of a successful reorder: the response is the re-read of
the moved task, some task with the requested id was found, and the new
store is a pointwise rewrite of the old one preserving ids and frame
fields. -/
theorem reorder_ok_cases (db : List Task) (req : MoveRequest) (now : Nat)
    (db2 : List Task) (r : Option Task)
    (h : reorder db req now = .ok (db2, r)) :
    r = db2.find? (fun t => t.id == req.taskId) ∧
    (∃ task, db.find? (fun t => t.id == req.taskId) = some task) ∧
    ∃ f : Task → Task, db2 = db.map f ∧
      (∀ t, (f t).id = t.id) ∧ (∀ t, frameFields (f t) = frameFields t) := by
  rw [reorder_eq] at h
  split at h
  · split at h
    · exact absurd h (by simp)
    · next task heq =>
      split at h
      · split at h
        · exact absurd h (by simp)
        · next moved rest hfr =>
          simp only [Except.ok.injEq, Prod.mk.injEq] at h
          obtain ⟨hdb, hr⟩ := h
          subst hdb
          refine ⟨by rw [← hr], ⟨task, heq⟩, ?_⟩
          exact ⟨applyUpdate (assignOrders now 0
              (spliceInsert rest req.destinationIndex moved)) now, rfl,
            fun t => applyUpdate_id _ _ t, fun t => applyUpdate_frame _ _ t⟩
      · rw [crossDb_eq_map] at h
        simp only [Except.ok.injEq, Prod.mk.injEq] at h
        obtain ⟨hdb, hr⟩ := h
        subst hdb
        refine ⟨by rw [← hr], ⟨task, heq⟩, ?_⟩
        exact ⟨fun t => openGapFn req now (closeGapFn req task.order now
            (setMovedFn req now t)), rfl,
          fun t => crossFn_id req task.order now t,
          fun t => crossFn_frame req task.order now t⟩
  · exact absurd h (by simp)

/-- C8: with column todo holding T1, T2, T3 at orders 0, 1, 2, the
in-column move of T1 to destination index 2 yields exactly T2 at order
0, T3 at order 1 and T1 at order 2. -/
theorem c8_scenario :
    reorder
      [⟨1, "T1", "", "todo", 0, 1, 1⟩, ⟨2, "T2", "", "todo", 1, 1, 1⟩,
       ⟨3, "T3", "", "todo", 2, 1, 1⟩]
      ⟨1, "todo", "todo", 2⟩ 7 =
    .ok ([⟨1, "T1", "", "todo", 2, 1, 7⟩, ⟨2, "T2", "", "todo", 0, 1, 7⟩,
          ⟨3, "T3", "", "todo", 1, 1, 7⟩],
         some ⟨1, "T1", "", "todo", 2, 1, 7⟩) := rfl

/-- C6: whenever the reorder request fails (every error response,
timeout or transport failure lands in the same catch block), the
client state after `handleDragEnd` is exactly the `originalTasks`
snapshot captured before the optimistic update, for every drag result
and every starting task list. -/
theorem c6_rollback_restores_snapshot (tasks : List Task) (result : DragEndResult) :
    (handleDragEnd tasks result .failure).final = tasks := by
  unfold handleDragEnd
  cases hdest : result.destination with
  | none => rfl
  | some destination =>
    dsimp only
    by_cases hc : (destination.droppableId == result.source.droppableId &&
        destination.index == result.source.index) = true
    · rw [if_pos hc]
    · rw [if_neg hc]
      cases hfind : tasks.find? (fun t => t.id == result.draggableId) with
      | none => rfl
      | some task => rfl

/-- C5 (amended): the client detects a drop on the same column and the
same index and short-circuits before issuing any request, leaving its
state untouched; the claim that the server-side operation writes
nothing on such a request is refuted by `c5_noop_counterexample`. -/
theorem c5_noop_client_guard (tasks : List Task) (result : DragEndResult)
    (outcome : ServerOutcome) (d : DropPos)
    (hdest : result.destination = some d)
    (hsame : d.droppableId = result.source.droppableId ∧
      d.index = result.source.index) :
    handleDragEnd tasks result outcome = ⟨tasks, tasks, false⟩ := by
  unfold handleDragEnd
  rw [hdest]
  have hc : (d.droppableId == result.source.droppableId &&
      d.index == result.source.index) = true := by
    simp [hsame.1, hsame.2]
  simp only [hc, if_true]

theorem c5_noop_client_guard_witness :
    handleDragEnd [⟨1, "T1", "", "todo", 0, 1, 1⟩]
      ⟨1, ⟨"todo", 0⟩, some ⟨"todo", 0⟩⟩ .failure =
      ⟨[⟨1, "T1", "", "todo", 0, 1, 1⟩], [⟨1, "T1", "", "todo", 0, 1, 1⟩], false⟩ :=
  c5_noop_client_guard [(⟨1, "T1", "", "todo", 0, 1, 1⟩ : Task)]
    (⟨1, ⟨"todo", 0⟩, some ⟨"todo", 0⟩⟩ : DragEndResult) .failure
    (⟨"todo", 0⟩ : DropPos) rfl ⟨rfl, rfl⟩

/-- C5 (counterexample): the server operation itself has no same-
position guard: a request that moves a task to its own column and its
own index is processed, and the bulk write changes the task record
(its `updatedAt` field moves from 10 to 99), so the record count
written is not zero. -/
theorem c5_noop_counterexample :
    reorder [⟨1, "T1", "", "todo", 0, 1, 10⟩] ⟨1, "todo", "todo", 0⟩ 99 =
      .ok ([⟨1, "T1", "", "todo", 0, 1, 99⟩], some ⟨1, "T1", "", "todo", 0, 1, 99⟩) ∧
    ([⟨1, "T1", "", "todo", 0, 1, 99⟩] : List Task) ≠
      [⟨1, "T1", "", "todo", 0, 1, 10⟩] :=
  ⟨rfl, by decide⟩

/-- C3 (amended): there is no StaleMove check.  For an in-column
request whose task is not currently in the stated column, the route
throws `Task not found in source column` before any write and answers
with the generic 500 `REORDER_ERROR`; a cross-column request with a
stale `sourceStatus` is not detected at all and is executed
(`c3_stale_counterexample`). -/
theorem c3_stale_in_column (db : List Task) (req : MoveRequest) (task : Task)
    (now : Nat)
    (hids : (db.map (fun t => t.id)).Nodup)
    (htask : task ∈ db) (hid : task.id = req.taskId)
    (hv : (validStatus req.sourceStatus && validStatus req.destinationStatus) = true)
    (heq : req.sourceStatus = req.destinationStatus)
    (hstale : ¬ task.status = req.sourceStatus) :
    reorder db req now = .error .reorderError := by
  have hfind : db.find? (fun t => t.id == req.taskId) = some task := by
    rw [← hid]
    exact find?_id_of_mem hids htask
  apply reorder_incol_err db req now task hv hfind heq
  apply findAndRemove_eq_none
  intro a ha
  have hamem : a ∈ db.filter (fun t => t.status == req.sourceStatus) := by
    unfold sortByOrder at ha
    exact (List.mem_insertionSort byOrder).mp ha
  have hastat : a.status = req.sourceStatus := by
    simpa using (List.mem_filter.mp hamem).2
  simp only [beq_eq_false_iff_ne, ne_eq]
  intro he
  have haeq : a = task :=
    eq_of_mem_of_id_eq hids (List.mem_of_mem_filter hamem) htask
      (by rw [he, hid])
  exact hstale (by rw [← haeq]; exact hastat)

theorem c3_stale_in_column_witness :
    reorder [⟨1, "T1", "", "done", 0, 1, 1⟩, ⟨2, "T2", "", "todo", 0, 1, 1⟩]
      ⟨1, "todo", "todo", 0⟩ 9 = .error .reorderError :=
  c3_stale_in_column [⟨1, "T1", "", "done", 0, 1, 1⟩, ⟨2, "T2", "", "todo", 0, 1, 1⟩]
    ⟨1, "todo", "todo", 0⟩ ⟨1, "T1", "", "done", 0, 1, 1⟩ 9
    (by decide) (by decide) rfl (by decide) rfl (by decide)

/-- C3 (counterexample): a cross-column request whose `sourceStatus`
("todo") does not match the actual column of the task ("done") is not
rejected: the route succeeds and writes the task record (its status
becomes "inprogress" and its `updatedAt` becomes 9), contradicting the
claim that it fails with StaleMove and writes nothing. -/
theorem c3_stale_counterexample :
    reorder [⟨1, "T1", "", "done", 0, 1, 1⟩, ⟨2, "T2", "", "todo", 0, 1, 1⟩]
      ⟨1, "todo", "inprogress", 0⟩ 9 =
    .ok ([⟨1, "T1", "", "inprogress", 0, 1, 9⟩, ⟨2, "T2", "", "todo", 0, 1, 1⟩],
         some ⟨1, "T1", "", "inprogress", 0, 1, 9⟩) := rfl

/-- C9 (amended): the creation route assigns `order` = greatest
existing order + 1 (0 for an empty column), which equals the count of
existing tasks exactly when the column is dense; on a dense column the
new task is appended with `order` equal to the task count. -/
theorem c9_creation_order_dense (db : List Task) (c : String)
    (hd : DenseCol db c) :
    nextOrder db c = ((db.filter (fun t => t.status == c)).length : Int) := by
  unfold nextOrder
  cases hs : sortByOrderDesc (db.filter (fun t => t.status == c)) with
  | nil =>
    have hlen : (db.filter (fun t => t.status == c)).length = 0 := by
      have hli := List.length_insertionSort byOrderDesc
        (db.filter (fun t => t.status == c))
      unfold sortByOrderDesc at hs
      rw [hs] at hli
      exact hli.symm
    simp [hlen]
  | cons h tl =>
    unfold sortByOrderDesc at hs
    have hmemh : h ∈ db.filter (fun t => t.status == c) := by
      have : h ∈ List.insertionSort byOrderDesc (db.filter (fun t => t.status == c)) := by
        rw [hs]
        exact List.mem_cons_self _ _
      exact (List.mem_insertionSort byOrderDesc).mp this
    have hsorted : List.Sorted byOrderDesc (h :: tl) := by
      rw [← hs]
      exact List.sorted_insertionSort byOrderDesc _
    have hmax : ∀ t ∈ db.filter (fun t => t.status == c), t.order ≤ h.order := by
      intro t ht
      have : t ∈ List.insertionSort byOrderDesc (db.filter (fun t => t.status == c)) :=
        (List.mem_insertionSort byOrderDesc).mpr ht
      rw [hs] at this
      rcases List.mem_cons.mp this with rfl | htl
      · exact le_refl _
      · exact List.rel_of_sorted_cons hsorted t htl
    have hn1 : 1 ≤ (db.filter (fun t => t.status == c)).length :=
      List.length_pos.mpr (List.ne_nil_of_mem hmemh)
    have hperm : List.Perm (colOrders db c)
        (rangeOrders (db.filter (fun t => t.status == c)).length) := by
      have := hd
      unfold DenseCol at this
      unfold colOrders at this ⊢
      rwa [List.length_map] at this
    have htop : ((db.filter (fun t => t.status == c)).length - 1 : Nat) <
        (db.filter (fun t => t.status == c)).length := by omega
    have hmemtop : (((db.filter (fun t => t.status == c)).length - 1 : Nat) : Int) ∈
        colOrders db c := by
      apply hperm.mem_iff.mpr
      unfold rangeOrders
      exact List.mem_map.mpr ⟨_, List.mem_range.mpr htop, rfl⟩
    obtain ⟨t, htmem, hteq⟩ := List.mem_map.mp hmemtop
    have hge : (((db.filter (fun t => t.status == c)).length - 1 : Nat) : Int) ≤ h.order := by
      rw [← hteq]
      exact hmax t htmem
    have hle : h.order ≤ (((db.filter (fun t => t.status == c)).length - 1 : Nat) : Int) := by
      have hin : h.order ∈ colOrders db c := by
        unfold colOrders
        exact List.mem_map.mpr ⟨h, hmemh, rfl⟩
      have := hperm.mem_iff.mp hin
      unfold rangeOrders at this
      obtain ⟨k, hk, hkeq⟩ := List.mem_map.mp this
      have hklt := List.mem_range.mp hk
      rw [← hkeq]
      have : k ≤ (db.filter (fun t => t.status == c)).length - 1 := by omega
      exact_mod_cast this
    have horder : h.order =
        (((db.filter (fun t => t.status == c)).length - 1 : Nat) : Int) :=
      le_antisymm hle hge
    rw [List.head?_cons]
    simp only [horder]
    omega

theorem c9_creation_order_dense_witness :
    nextOrder [⟨1, "T1", "", "todo", 0, 1, 1⟩, ⟨2, "T2", "", "todo", 1, 1, 1⟩] "todo" =
      ((([⟨1, "T1", "", "todo", 0, 1, 1⟩, ⟨2, "T2", "", "todo", 1, 1, 1⟩] : List Task).filter
        (fun t => t.status == "todo")).length : Int) :=
  c9_creation_order_dense
    [⟨1, "T1", "", "todo", 0, 1, 1⟩, ⟨2, "T2", "", "todo", 1, 1, 1⟩] "todo" (by decide)

/-- C9 (counterexample): on a non-dense column (one task with order 5)
the route assigns order 6, not the task count 1: creation uses
greatest order + 1, not the count. -/
theorem c9_creation_counterexample :
    nextOrder [⟨1, "T1", "", "todo", 5, 1, 1⟩] "todo" = 6 ∧
    (([⟨1, "T1", "", "todo", 5, 1, 1⟩] : List Task).filter
      (fun t => t.status == "todo")).length = 1 ∧ (6 : Int) ≠ (1 : Int) :=
  ⟨rfl, rfl, by decide⟩

/-- C10 (amended): a successful move never creates or destroys a task
and touches only the `column` (status), `order` and `updatedAt` fields:
identifier, title, description and creation timestamp of every record
are unchanged and the total task count is conserved. -/
theorem c10_move_frame (db : List Task) (req : MoveRequest) (now : Nat)
    (db2 : List Task) (r : Option Task)
    (h : reorder db req now = .ok (db2, r)) :
    db2.map frameFields = db.map frameFields ∧ db2.length = db.length := by
  obtain ⟨-, -, f, hdb2, -, hframe⟩ := reorder_ok_cases db req now db2 r h
  subst hdb2
  constructor
  · rw [List.map_map]
    exact List.map_congr_left (fun t _ => hframe t)
  · rw [List.length_map]

theorem c10_move_frame_witness :
    ([⟨1, "A", "a", "done", 1, 4, 9⟩, ⟨2, "B", "b", "todo", 0, 5, 9⟩] : List Task).map
        frameFields =
      ([⟨1, "A", "a", "todo", 0, 4, 3⟩, ⟨2, "B", "b", "todo", 1, 5, 3⟩] : List Task).map
        frameFields ∧
    ([⟨1, "A", "a", "done", 1, 4, 9⟩, ⟨2, "B", "b", "todo", 0, 5, 9⟩] : List Task).length =
      ([⟨1, "A", "a", "todo", 0, 4, 3⟩, ⟨2, "B", "b", "todo", 1, 5, 3⟩] : List Task).length :=
  c10_move_frame [⟨1, "A", "a", "todo", 0, 4, 3⟩, ⟨2, "B", "b", "todo", 1, 5, 3⟩]
    ⟨1, "todo", "done", 1⟩ 9
    [⟨1, "A", "a", "done", 1, 4, 9⟩, ⟨2, "B", "b", "todo", 0, 5, 9⟩]
    (some ⟨1, "A", "a", "done", 1, 4, 9⟩) rfl

/-- C10 (counterexample): a move does modify a field other than
`column` and `order`: the bulk write stamps a fresh `updatedAt` on
every task of the rewritten column, here changing the `updatedAt` of
the not-moved task T2 from 3 to 9. -/
theorem c10_move_counterexample :
    reorder [⟨1, "T1", "", "todo", 0, 1, 3⟩, ⟨2, "T2", "", "todo", 1, 1, 3⟩]
      ⟨1, "todo", "todo", 1⟩ 9 =
    .ok ([⟨1, "T1", "", "todo", 1, 1, 9⟩, ⟨2, "T2", "", "todo", 0, 1, 9⟩],
         some ⟨1, "T1", "", "todo", 1, 1, 9⟩) ∧
    (⟨2, "T2", "", "todo", 0, 1, 9⟩ : Task).updatedAt ≠
      (⟨2, "T2", "", "todo", 1, 1, 3⟩ : Task).updatedAt :=
  ⟨rfl, by decide⟩

/-- C4 (amended): the success response carries exactly one task — the
moved one, freshly re-read from the store after the writes — not the
full ordered task lists of the touched columns; the client compensates
by re-fetching all tasks after a success. -/
theorem c4_response_is_moved_task (db : List Task) (req : MoveRequest) (now : Nat)
    (db2 : List Task) (r : Option Task)
    (h : reorder db req now = .ok (db2, r)) :
    ∃ t, r = some t ∧ t.id = req.taskId ∧ t ∈ db2 := by
  obtain ⟨hr, ⟨task, hfind⟩, f, hdb2, hfid, -⟩ := reorder_ok_cases db req now db2 r h
  subst hdb2
  rw [find?_map_id_pred db f hfid req.taskId, hfind, Option.map_some'] at hr
  refine ⟨f task, hr, ?_, ?_⟩
  · rw [hfid task]
    simpa using List.find?_some hfind
  · exact List.mem_map.mpr ⟨task, List.mem_of_find?_eq_some hfind, rfl⟩

theorem c4_response_is_moved_task_witness :
    ∃ t, (some (⟨1, "T1", "", "todo", 1, 1, 5⟩ : Task)) = some t ∧ t.id = 1 ∧
      t ∈ ([⟨1, "T1", "", "todo", 1, 1, 5⟩, ⟨2, "T2", "", "todo", 0, 1, 5⟩] : List Task) :=
  c4_response_is_moved_task
    [⟨1, "T1", "", "todo", 0, 1, 1⟩, ⟨2, "T2", "", "todo", 1, 1, 1⟩]
    ⟨1, "todo", "todo", 1⟩ 5
    [⟨1, "T1", "", "todo", 1, 1, 5⟩, ⟨2, "T2", "", "todo", 0, 1, 5⟩]
    (some ⟨1, "T1", "", "todo", 1, 1, 5⟩) rfl

/-- C4 (counterexample): a successful in-column move in a two-task
column answers with only the moved task (id 1): task 2 sits in the
touched column of the new store but appears nowhere in the response
data, so the response is not the full ordered task list of the
column. -/
theorem c4_response_counterexample :
    reorder [⟨1, "T1", "", "todo", 0, 1, 1⟩, ⟨2, "T2", "", "todo", 1, 1, 1⟩]
      ⟨1, "todo", "todo", 1⟩ 5 =
    .ok ([⟨1, "T1", "", "todo", 1, 1, 5⟩, ⟨2, "T2", "", "todo", 0, 1, 5⟩],
         some ⟨1, "T1", "", "todo", 1, 1, 5⟩) ∧
    (2 : Nat) ∈ (([⟨1, "T1", "", "todo", 1, 1, 5⟩, ⟨2, "T2", "", "todo", 0, 1, 5⟩] :
      List Task).filter (fun t => t.status == "todo")).map (fun t => t.id) ∧
    ∀ t ∈ (some (⟨1, "T1", "", "todo", 1, 1, 5⟩ : Task)).toList, ¬ t.id = 2 :=
  ⟨rfl, by decide, by decide⟩

/-- C1 (amended): starting from dense columns, a successful move leaves
the orders of both affected columns dense `0..n-1`, for in-column moves
with any accepted `destinationIndex`, and for cross-column moves
provided the request is not stale (the task really is in
`sourceStatus`) and `destinationIndex` does not exceed the destination
column size; a larger cross-column `destinationIndex` leaves a gap
(`c1_density_counterexample`). -/
theorem c1_density (db : List Task) (req : MoveRequest) (task : Task) (now : Nat)
    (hids : (db.map (fun t => t.id)).Nodup)
    (htask : task ∈ db) (hid : task.id = req.taskId)
    (hst : task.status = req.sourceStatus)
    (hv : (validStatus req.sourceStatus && validStatus req.destinationStatus) = true)
    (hdsrc : DenseCol db req.sourceStatus)
    (hddst : DenseCol db req.destinationStatus)
    (hclamp : req.sourceStatus = req.destinationStatus ∨
      req.destinationIndex ≤ (colOrders db req.destinationStatus).length) :
    ∃ db2 r, reorder db req now = .ok (db2, r) ∧
      DenseCol db2 req.sourceStatus ∧ DenseCol db2 req.destinationStatus := by
  have hfind : db.find? (fun t => t.id == req.taskId) = some task := by
    rw [← hid]
    exact find?_id_of_mem hids htask
  by_cases heq : req.sourceStatus = req.destinationStatus
  · have htcol : task ∈ sortByOrder (db.filter (fun t => t.status == req.sourceStatus)) := by
      unfold sortByOrder
      exact (List.mem_insertionSort byOrder).mpr
        (List.mem_filter.mpr ⟨htask, by
          show (task.status == req.sourceStatus) = true
          simp [hst]⟩)
    obtain ⟨moved, rest, hfr⟩ :=
      @findAndRemove_isSome (fun t => t.id == req.taskId)
        (sortByOrder (db.filter (fun t => t.status == req.sourceStatus)))
        ⟨task, htcol, by simp [hid]⟩
    have hok := reorder_incol_eq db req now task moved rest hv hfind heq hfr
    have hperm : List.Perm (spliceInsert rest req.destinationIndex moved)
        (db.filter (fun t => t.status == req.sourceStatus)) := by
      refine (spliceInsert_perm rest req.destinationIndex moved).trans ?_
      refine (findAndRemove_perm hfr).symm.trans ?_
      unfold sortByOrder
      exact List.perm_insertionSort byOrder _
    have hdense := inColumn_dense db (spliceInsert rest req.destinationIndex moved)
      req.sourceStatus now hids hperm
    exact ⟨_, _, hok, hdense, heq ▸ hdense⟩
  · rcases hclamp with heq2 | hidx
    · exact absurd heq2 heq
    · have hok := reorder_cross_eq db req now task hv hfind heq
      have hd := cross_dense db req task now hids htask hid hst heq hdsrc hddst hidx
      exact ⟨_, _, hok, hd.1, hd.2⟩

theorem c1_density_witness :
    ∃ db2 r, reorder [⟨1, "T1", "", "todo", 0, 1, 1⟩, ⟨2, "T2", "", "done", 0, 1, 1⟩]
      ⟨1, "todo", "done", 1⟩ 5 = .ok (db2, r) ∧
      DenseCol db2 "todo" ∧ DenseCol db2 "done" :=
  c1_density [⟨1, "T1", "", "todo", 0, 1, 1⟩, ⟨2, "T2", "", "done", 0, 1, 1⟩]
    ⟨1, "todo", "done", 1⟩ ⟨1, "T1", "", "todo", 0, 1, 1⟩ 5
    (by decide) (by decide) rfl rfl (by decide) (by decide) (by decide)
    (Or.inr (by decide))

/-- C1 (counterexample): the cross-column branch writes
`order: destinationIndex` without clamping: moving T1 into the
one-task column "done" at destination index 5 succeeds but leaves
"done" holding orders 0 and 5 — not dense — even though both columns
were dense before. -/
theorem c1_density_counterexample :
    reorder [⟨1, "T1", "", "todo", 0, 1, 1⟩, ⟨2, "T2", "", "done", 0, 1, 1⟩]
      ⟨1, "todo", "done", 5⟩ 9 =
    .ok ([⟨1, "T1", "", "done", 5, 1, 9⟩, ⟨2, "T2", "", "done", 0, 1, 1⟩],
         some ⟨1, "T1", "", "done", 5, 1, 9⟩) ∧
    DenseCol [⟨1, "T1", "", "todo", 0, 1, 1⟩, ⟨2, "T2", "", "done", 0, 1, 1⟩] "todo" ∧
    DenseCol [⟨1, "T1", "", "todo", 0, 1, 1⟩, ⟨2, "T2", "", "done", 0, 1, 1⟩] "done" ∧
    ¬ DenseCol [⟨1, "T1", "", "done", 5, 1, 9⟩, ⟨2, "T2", "", "done", 0, 1, 1⟩] "done" :=
  ⟨rfl, by decide, by decide, by decide⟩

/-- C2 (amended): in-column moves clamp: a `destinationIndex` at or
beyond the column length appends at the end, the moved task ending
with order = column length - 1 and the column size unchanged.
Cross-column moves do not clamp: the moved task's order is set to
`destinationIndex` verbatim, so only `destinationIndex` = destination
length behaves as an append (order = new length - 1); larger values
leave a gap (`c2_clamp_counterexample`). -/
theorem c2_append_clamp (db : List Task) (req : MoveRequest) (task : Task) (now : Nat)
    (hids : (db.map (fun t => t.id)).Nodup)
    (htask : task ∈ db) (hid : task.id = req.taskId)
    (hst : task.status = req.sourceStatus)
    (hv : (validStatus req.sourceStatus && validStatus req.destinationStatus) = true) :
    (req.sourceStatus = req.destinationStatus →
      (db.filter (fun t => t.status == req.sourceStatus)).length ≤ req.destinationIndex →
      ∃ db2 t, reorder db req now = .ok (db2, some t) ∧ t.id = req.taskId ∧
        t.order = ((db.filter (fun t => t.status == req.sourceStatus)).length : Int) - 1 ∧
        (db2.filter (fun t => t.status == req.sourceStatus)).length =
          (db.filter (fun t => t.status == req.sourceStatus)).length) ∧
    (¬ req.sourceStatus = req.destinationStatus →
      req.destinationIndex = (db.filter (fun t => t.status == req.destinationStatus)).length →
      ∃ db2 t, reorder db req now = .ok (db2, some t) ∧ t.id = req.taskId ∧
        t.order = ((db.filter (fun t => t.status == req.destinationStatus)).length : Int) ∧
        (db2.filter (fun t => t.status == req.destinationStatus)).length =
          (db.filter (fun t => t.status == req.destinationStatus)).length + 1) := by
  have hfind : db.find? (fun t => t.id == req.taskId) = some task := by
    rw [← hid]
    exact find?_id_of_mem hids htask
  constructor
  · intro heq hlen
    have htcol : task ∈ sortByOrder (db.filter (fun t => t.status == req.sourceStatus)) := by
      unfold sortByOrder
      exact (List.mem_insertionSort byOrder).mpr
        (List.mem_filter.mpr ⟨htask, by
          show (task.status == req.sourceStatus) = true
          simp [hst]⟩)
    obtain ⟨moved, rest, hfr⟩ :=
      @findAndRemove_isSome (fun t => t.id == req.taskId)
        (sortByOrder (db.filter (fun t => t.status == req.sourceStatus)))
        ⟨task, htcol, by simp [hid]⟩
    have hok := reorder_incol_eq db req now task moved rest hv hfind heq hfr
    have hcol_len : (sortByOrder (db.filter (fun t => t.status == req.sourceStatus))).length =
        (db.filter (fun t => t.status == req.sourceStatus)).length := by
      unfold sortByOrder
      exact List.length_insertionSort byOrder _
    have hmr := findAndRemove_perm hfr
    have hrest_len : rest.length + 1 =
        (db.filter (fun t => t.status == req.sourceStatus)).length := by
      have hle := hmr.length_eq
      rw [hcol_len] at hle
      simpa using hle.symm
    have hsplice : spliceInsert rest req.destinationIndex moved = rest ++ [moved] :=
      spliceInsert_of_le moved (by omega)
    have hmid : moved.id = req.taskId := by
      simpa using findAndRemove_prop hfr
    have hsortnd : ((sortByOrder (db.filter (fun t => t.status == req.sourceStatus))).map
        (fun t => t.id)).Nodup := by
      have hfnd := nodup_ids_filter db (fun t => t.status == req.sourceStatus) hids
      refine (List.Perm.nodup_iff ?_).mpr hfnd
      unfold sortByOrder
      exact (List.perm_insertionSort byOrder _).map _
    have hcolnd : ((moved :: rest).map (fun t => t.id)).Nodup :=
      ((hmr.map (fun t => t.id)).nodup_iff).mp hsortnd
    rw [List.map_cons, List.nodup_cons] at hcolnd
    have hrest_no_tid : ∀ u ∈ rest, ¬ u.id = req.taskId := by
      intro u hu he
      exact hcolnd.1 (List.mem_map.mpr ⟨u, hu, by rw [he, hmid]⟩)
    have hupd : (assignOrders now 0 (rest ++ [moved])).find?
        (fun u => u.id == task.id) =
        some { moved with order := (rest.length : Int), updatedAt := now } := by
      rw [assignOrders_append, List.find?_append]
      have h1 : (assignOrders now 0 rest).find? (fun u => u.id == task.id) = none := by
        rw [List.find?_eq_none]
        intro u hu
        have hmem : u.id ∈ (assignOrders now 0 rest).map (fun t => t.id) :=
          List.mem_map.mpr ⟨u, hu, rfl⟩
        rw [assignOrders_map_id] at hmem
        obtain ⟨v, hv, hveq⟩ := List.mem_map.mp hmem
        simp only [beq_iff_eq]
        intro he
        exact hrest_no_tid v hv (by rw [hveq, he, hid])
      rw [h1, Option.none_or]
      show (assignOrders now (0 + rest.length) [moved]).find?
        (fun u => u.id == task.id) = _
      rw [Nat.zero_add]
      unfold assignOrders
      rw [List.find?_cons_of_pos _ (by simp [hmid, hid])]
    have hresp : (applyBulk (assignOrders now 0 (rest ++ [moved])) now db).find?
        (fun t => t.id == req.taskId) =
        some { task with order := (rest.length : Int), updatedAt := now } := by
      unfold applyBulk
      rw [find?_map_id_pred db _ (fun t => applyUpdate_id _ _ t) req.taskId, hfind,
        Option.map_some']
      congr 1
      unfold applyUpdate
      rw [hupd]
    rw [hsplice] at hok
    rw [hresp] at hok
    refine ⟨_, _, hok, by simp [hid], ?_, ?_⟩
    · show (rest.length : Int) = _
      omega
    · have hperm2 : List.Perm (rest ++ [moved])
          (db.filter (fun t => t.status == req.sourceStatus)) := by
        refine (List.perm_append_singleton moved rest).trans ?_
        refine hmr.symm.trans ?_
        unfold sortByOrder
        exact List.perm_insertionSort byOrder _
      have hfperm := inColumn_filter_perm db (rest ++ [moved])
        req.sourceStatus now hids hperm2
      have hl := hfperm.length_eq
      rw [assignOrders_length] at hl
      unfold applyBulk at hl ⊢
      rw [hl]
      simp only [List.length_append, List.length_cons, List.length_nil]
      omega
  · intro hne hidx
    have hok := reorder_cross_eq db req now task hv hfind hne
    have hresp : (db.map (fun t => openGapFn req now
        (closeGapFn req task.order now (setMovedFn req now t)))).find?
        (fun t => t.id == req.taskId) =
        some { task with status := req.destinationStatus,
                         order := (req.destinationIndex : Int), updatedAt := now } := by
      rw [find?_map_id_pred db _ (fun t => crossFn_id req task.order now t) req.taskId,
        hfind, Option.map_some']
      show some (openGapFn req now (closeGapFn req task.order now
        (setMovedFn req now task))) = _
      rw [crossFn_moved req task.order now task hid hne]
    rw [hresp] at hok
    refine ⟨_, _, hok, by simp [hid], ?_, ?_⟩
    · show ((req.destinationIndex : Int)) = _
      rw [hidx]
    · have hdperm := cross_dest_orders db req task now hids htask hid hst hne
      have hl := hdperm.length_eq
      unfold colOrders at hl
      simp only [List.length_map, List.length_cons] at hl
      rw [hl]

theorem c2_append_clamp_witness :
    ((("todo" : String) = "todo" →
      (([⟨1, "T1", "", "todo", 0, 1, 1⟩, ⟨2, "T2", "", "todo", 1, 1, 1⟩] : List Task).filter
        (fun t => t.status == "todo")).length ≤ 7 →
      ∃ db2 t, reorder [⟨1, "T1", "", "todo", 0, 1, 1⟩, ⟨2, "T2", "", "todo", 1, 1, 1⟩]
          ⟨1, "todo", "todo", 7⟩ 9 = .ok (db2, some t) ∧ t.id = 1 ∧
        t.order = ((([⟨1, "T1", "", "todo", 0, 1, 1⟩, ⟨2, "T2", "", "todo", 1, 1, 1⟩] :
          List Task).filter (fun t => t.status == "todo")).length : Int) - 1 ∧
        (db2.filter (fun t => t.status == "todo")).length =
          (([⟨1, "T1", "", "todo", 0, 1, 1⟩, ⟨2, "T2", "", "todo", 1, 1, 1⟩] :
            List Task).filter (fun t => t.status == "todo")).length) ∧
    (¬ ("todo" : String) = "todo" →
      7 = (([⟨1, "T1", "", "todo", 0, 1, 1⟩, ⟨2, "T2", "", "todo", 1, 1, 1⟩] :
        List Task).filter (fun t => t.status == "todo")).length →
      ∃ db2 t, reorder [⟨1, "T1", "", "todo", 0, 1, 1⟩, ⟨2, "T2", "", "todo", 1, 1, 1⟩]
          ⟨1, "todo", "todo", 7⟩ 9 = .ok (db2, some t) ∧ t.id = 1 ∧
        t.order = ((([⟨1, "T1", "", "todo", 0, 1, 1⟩, ⟨2, "T2", "", "todo", 1, 1, 1⟩] :
          List Task).filter (fun t => t.status == "todo")).length : Int) ∧
        (db2.filter (fun t => t.status == "todo")).length =
          (([⟨1, "T1", "", "todo", 0, 1, 1⟩, ⟨2, "T2", "", "todo", 1, 1, 1⟩] :
            List Task).filter (fun t => t.status == "todo")).length + 1)) :=
  c2_append_clamp [⟨1, "T1", "", "todo", 0, 1, 1⟩, ⟨2, "T2", "", "todo", 1, 1, 1⟩]
    ⟨1, "todo", "todo", 7⟩ ⟨1, "T1", "", "todo", 0, 1, 1⟩ 9
    (by decide) (by decide) rfl rfl (by decide)

/-- C2 (counterexample): a cross-column move with `destinationIndex` 5
into a one-task column succeeds, but the moved task's resulting order
is 5, not the destination column's final length minus one (the final
"done" column has 2 tasks, so an append would give order 1): the index
is not clamped. -/
theorem c2_clamp_counterexample :
    reorder [⟨1, "T1", "", "todo", 0, 1, 1⟩, ⟨2, "T2", "", "done", 0, 1, 1⟩]
      ⟨1, "todo", "done", 5⟩ 9 =
    .ok ([⟨1, "T1", "", "done", 5, 1, 9⟩, ⟨2, "T2", "", "done", 0, 1, 1⟩],
         some ⟨1, "T1", "", "done", 5, 1, 9⟩) ∧
    (([⟨1, "T1", "", "done", 5, 1, 9⟩, ⟨2, "T2", "", "done", 0, 1, 1⟩] : List Task).filter
      (fun t => t.status == "done")).length = 2 ∧
    (⟨1, "T1", "", "done", 5, 1, 9⟩ : Task).order ≠ ((2 : Int) - 1) :=
  ⟨rfl, rfl, by decide⟩

/-- C7: for a dense starting state, moving task T from column A (where
it sits at order i) to column B at index j and then, with no move in
between, from B back to A at index i restores every record of the
store up to the refreshed `updatedAt` timestamps; in particular the
ordered task lists (membership, sequence, order values) of both A and
B are restored exactly. -/
theorem c7_round_trip (db : List Task) (T : Task) (A B : String) (i j : Nat)
    (n₁ n₂ : Nat)
    (hids : (db.map (fun t => t.id)).Nodup)
    (hT : T ∈ db) (hA : T.status = A) (hi : T.order = (i : Int))
    (hAB : ¬ A = B)
    (hvA : validStatus A = true) (hvB : validStatus B = true)
    (hdA : DenseCol db A) (hdB : DenseCol db B)
    (hj : j ≤ (colOrders db B).length) :
    ∃ db1 r1 db2 r2,
      reorder db ⟨T.id, A, B, j⟩ n₁ = .ok (db1, r1) ∧
      reorder db1 ⟨T.id, B, A, i⟩ n₂ = .ok (db2, r2) ∧
      db2.map stripTime = db.map stripTime ∧
      (∀ c, colOrders db2 c = colOrders db c) := by
  have hv₁ : (validStatus A && validStatus B) = true := by rw [hvA, hvB]; rfl
  have hv₂ : (validStatus B && validStatus A) = true := by rw [hvA, hvB]; rfl
  have hBA : ¬ B = A := fun h => hAB h.symm
  have hfind₁ : db.find? (fun t => t.id == T.id) = some T :=
    find?_id_of_mem hids hT
  have hok₁ := reorder_cross_eq db ⟨T.id, A, B, j⟩ n₁ T hv₁ hfind₁ hAB
  have hfind₂ : (db.map (fun t => openGapFn ⟨T.id, A, B, j⟩ n₁
      (closeGapFn ⟨T.id, A, B, j⟩ T.order n₁
        (setMovedFn ⟨T.id, A, B, j⟩ n₁ t)))).find? (fun t => t.id == T.id) =
      some { T with status := B, order := (j : Int), updatedAt := n₁ } := by
    rw [find?_map_id_pred db _
      (fun t => crossFn_id ⟨T.id, A, B, j⟩ T.order n₁ t) T.id, hfind₁,
      Option.map_some']
    show some (openGapFn ⟨T.id, A, B, j⟩ n₁ (closeGapFn ⟨T.id, A, B, j⟩ T.order n₁
      (setMovedFn ⟨T.id, A, B, j⟩ n₁ T))) = _
    rw [crossFn_moved ⟨T.id, A, B, j⟩ T.order n₁ T rfl hAB]
  have hok₂ := reorder_cross_eq
    (db.map (fun t => openGapFn ⟨T.id, A, B, j⟩ n₁
      (closeGapFn ⟨T.id, A, B, j⟩ T.order n₁ (setMovedFn ⟨T.id, A, B, j⟩ n₁ t))))
    ⟨T.id, B, A, i⟩ n₂
    { T with status := B, order := (j : Int), updatedAt := n₁ } hv₂ hfind₂ hBA
  have hdA' : List.Perm (colOrders db A)
      (rangeOrders (colOrders db A).length) := hdA
  have hordnodupA : ((db.filter (fun x => x.status == A)).map
      (fun x => x.order)).Nodup := by
    have hr : (rangeOrders (colOrders db A).length).Nodup := by
      unfold rangeOrders
      exact (List.nodup_range _).map Nat.cast_injective
    exact hdA'.nodup_iff.mpr hr
  have hstrip : (((db.map (fun t => openGapFn ⟨T.id, A, B, j⟩ n₁
      (closeGapFn ⟨T.id, A, B, j⟩ T.order n₁
        (setMovedFn ⟨T.id, A, B, j⟩ n₁ t)))).map
      (fun t => openGapFn ⟨T.id, B, A, i⟩ n₂
        (closeGapFn ⟨T.id, B, A, i⟩
          ({ T with status := B, order := (j : Int), updatedAt := n₁ } : Task).order n₂
          (setMovedFn ⟨T.id, B, A, i⟩ n₂ t)))).map stripTime) =
      db.map stripTime := by
    rw [List.map_map, List.map_map]
    apply List.map_congr_left
    intro t ht
    simp only [Function.comp_apply]
    by_cases hidt : t.id = T.id
    · have ht2 : t = T := eq_of_mem_of_id_eq hids ht hT hidt
      subst ht2
      rw [crossFn_moved ⟨t.id, A, B, j⟩ t.order n₁ t rfl hAB]
      rw [crossFn_moved ⟨t.id, B, A, i⟩
        ({ t with status := B, order := (j : Int), updatedAt := n₁ } : Task).order n₂
        { t with status := B, order := (j : Int), updatedAt := n₁ } rfl hBA]
      simp [stripTime, hA, hi]
    · by_cases hsA : t.status = A
      · rw [crossFn_source ⟨T.id, A, B, j⟩ T.order n₁ t hidt hsA hAB]
        by_cases hlt : T.order < t.order
        · rw [if_pos hlt]
          rw [crossFn_dest ⟨T.id, B, A, i⟩
            ({ T with status := B, order := (j : Int), updatedAt := n₁ } : Task).order n₂
            { t with order := t.order - 1, updatedAt := n₁ } hidt hsA hBA]
          rw [if_pos (show (i : Int) ≤
            ({ t with order := t.order - 1, updatedAt := n₁ } : Task).order by
              show (i : Int) ≤ t.order - 1
              omega)]
          simp [stripTime]
        · rw [if_neg hlt]
          have hne_ord : ¬ t.order = T.order := by
            intro he
            have htf : t ∈ db.filter (fun x => x.status == A) :=
              List.mem_filter.mpr ⟨ht, by
                show (t.status == A) = true
                simp [hsA]⟩
            have hTf : T ∈ db.filter (fun x => x.status == A) :=
              List.mem_filter.mpr ⟨hT, by
                show (T.status == A) = true
                simp [hA]⟩
            have heqt : t = T :=
              List.inj_on_of_nodup_map hordnodupA htf hTf he
            exact hidt (by rw [heqt])
          rw [crossFn_dest ⟨T.id, B, A, i⟩
            ({ T with status := B, order := (j : Int), updatedAt := n₁ } : Task).order n₂
            t hidt hsA hBA]
          rw [if_neg (show ¬ (i : Int) ≤ t.order by omega)]
      · by_cases hsB : t.status = B
        · rw [crossFn_dest ⟨T.id, A, B, j⟩ T.order n₁ t hidt hsB hAB]
          by_cases hle : (j : Int) ≤ t.order
          · rw [if_pos hle]
            rw [crossFn_source ⟨T.id, B, A, i⟩
              ({ T with status := B, order := (j : Int), updatedAt := n₁ } : Task).order n₂
              { t with order := t.order + 1, updatedAt := n₁ } hidt hsB hBA]
            rw [if_pos (show
              ({ T with status := B, order := (j : Int), updatedAt := n₁ } : Task).order <
              ({ t with order := t.order + 1, updatedAt := n₁ } : Task).order by
                show (j : Int) < t.order + 1
                omega)]
            simp [stripTime]
          · rw [if_neg hle]
            rw [crossFn_source ⟨T.id, B, A, i⟩
              ({ T with status := B, order := (j : Int), updatedAt := n₁ } : Task).order n₂
              t hidt hsB hBA]
            rw [if_neg (show ¬
              ({ T with status := B, order := (j : Int), updatedAt := n₁ } : Task).order <
              t.order by
                show ¬ (j : Int) < t.order
                omega)]
        · rw [crossFn_other ⟨T.id, A, B, j⟩ T.order n₁ t hidt hsA hsB]
          rw [crossFn_other ⟨T.id, B, A, i⟩
            ({ T with status := B, order := (j : Int), updatedAt := n₁ } : Task).order n₂
            t hidt hsB hsA]
  refine ⟨_, _, _, _, hok₁, hok₂, hstrip, ?_⟩
  intro c
  rw [colOrders_via_strip, hstrip, ← colOrders_via_strip]

theorem c7_round_trip_witness :
    ∃ db1 r1 db2 r2,
      reorder [⟨1, "T1", "", "todo", 0, 1, 1⟩, ⟨2, "T2", "", "todo", 1, 1, 1⟩,
               ⟨3, "T3", "", "done", 0, 1, 1⟩]
        ⟨1, "todo", "done", 1⟩ 50 = .ok (db1, r1) ∧
      reorder db1 ⟨1, "done", "todo", 0⟩ 60 = .ok (db2, r2) ∧
      db2.map stripTime =
        ([⟨1, "T1", "", "todo", 0, 1, 1⟩, ⟨2, "T2", "", "todo", 1, 1, 1⟩,
          ⟨3, "T3", "", "done", 0, 1, 1⟩] : List Task).map stripTime ∧
      (∀ c, colOrders db2 c =
        colOrders [⟨1, "T1", "", "todo", 0, 1, 1⟩, ⟨2, "T2", "", "todo", 1, 1, 1⟩,
                   ⟨3, "T3", "", "done", 0, 1, 1⟩] c) :=
  c7_round_trip
    [⟨1, "T1", "", "todo", 0, 1, 1⟩, ⟨2, "T2", "", "todo", 1, 1, 1⟩,
     ⟨3, "T3", "", "done", 0, 1, 1⟩]
    ⟨1, "T1", "", "todo", 0, 1, 1⟩ "todo" "done" 0 1 50 60
    (by decide) (by decide) rfl rfl (by decide) (by decide) (by decide)
    (by decide) (by decide) (by decide)

end Wellfound
